import Mathlib

/-!
# Verification of the Employee-Scheduler staffing core

Shallow embedding of the staffing-requirement derivation and
employee-matching engine of the warehouse scheduler
(`metrics_service.py`, `database.py`, `schedule_service.py`,
`api_client.py`, `staffing_history.py`, `config.py`), together with
proofs of the specified properties.

Python `dict`s (insertion-ordered, unique keys) are embedded as
association lists; Python `float` arithmetic is embedded as exact
rational arithmetic (`ℚ`), with Python's `round` (banker's rounding)
modelled on `ℚ`; Python `int`s are embedded as `ℤ`.
-/

namespace Scheduler

/-! ## Association-list helpers (Python `dict` operations) -/

/-- Lookup of a key in an association list (Python `d.get(k)` /
`d[k]`, first occurrence wins; a real `dict` has unique keys). -/
def alookup {α : Type} : List (String × α) → String → Option α
  | [], _ => none
  | (k, v) :: rest, key => if k = key then some v else alookup rest key

/-- Overwrite every binding of `key` with `v`, keeping positions. -/
def updEntry {α : Type} (key : String) (v : α) (p : String × α) :
    String × α :=
  if p.1 = key then (key, v) else p

/-- Python `d[k] = v`: overwrite the value at `k` in place if present
(keeping its position), otherwise append the binding at the end. -/
def dictSet {α : Type} (d : List (String × α)) (key : String) (v : α) :
    List (String × α) :=
  if (alookup d key).isSome then d.map (updEntry key v)
  else d ++ [(key, v)]

theorem alookup_append {α : Type} (d e : List (String × α)) (k : String) :
    alookup (d ++ e) k = ((alookup d k).or (alookup e k)) := by
  induction d with
  | nil => simp [alookup]
  | cons p rest ih =>
    obtain ⟨k', v⟩ := p
    by_cases h : k' = k <;> simp [alookup, h, ih]

theorem alookup_map_updEntry_self {α : Type} (d : List (String × α))
    (k : String) (v : α) (h : (alookup d k).isSome) :
    alookup (d.map (updEntry k v)) k = some v := by
  induction d with
  | nil => simp [alookup] at h
  | cons p rest ih =>
    obtain ⟨k', v'⟩ := p
    by_cases hk : k' = k
    · have hu : updEntry k v (k', v') = (k, v) := by simp [updEntry, hk]
      rw [List.map_cons, hu, alookup, if_pos rfl]
    · have hu : updEntry k v (k', v') = (k', v') := by simp [updEntry, hk]
      rw [alookup, if_neg hk] at h
      rw [List.map_cons, hu, alookup, if_neg hk]
      exact ih h

theorem alookup_map_updEntry_other {α : Type} (d : List (String × α))
    (k k' : String) (v : α) (h : k' ≠ k) :
    alookup (d.map (updEntry k v)) k' = alookup d k' := by
  induction d with
  | nil => simp [alookup]
  | cons p rest ih =>
    obtain ⟨k₀, v₀⟩ := p
    by_cases hk : k₀ = k
    · have hu : updEntry k v (k₀, v₀) = (k, v) := by simp [updEntry, hk]
      have h2 : ¬ (k = k') := fun hh => h hh.symm
      have h1 : ¬ (k₀ = k') := by rw [hk]; exact h2
      rw [List.map_cons, hu, alookup, if_neg h2, alookup, if_neg h1]
      exact ih
    · have hu : updEntry k v (k₀, v₀) = (k₀, v₀) := by simp [updEntry, hk]
      rw [List.map_cons, hu, alookup, alookup]
      by_cases hk' : k₀ = k'
      · rw [if_pos hk', if_pos hk']
      · rw [if_neg hk', if_neg hk']
        exact ih

theorem alookup_dictSet_self {α : Type} (d : List (String × α))
    (k : String) (v : α) : alookup (dictSet d k v) k = some v := by
  unfold dictSet
  split
  · exact alookup_map_updEntry_self d k v (by assumption)
  · rw [alookup_append]
    have hnone : alookup d k = none := by
      rename_i h
      cases hd : alookup d k with
      | none => rfl
      | some w => rw [hd] at h; simp at h
    simp [hnone, alookup]

theorem alookup_dictSet_other {α : Type} (d : List (String × α))
    (k k' : String) (v : α) (h : k' ≠ k) :
    alookup (dictSet d k v) k' = alookup d k' := by
  unfold dictSet
  split
  · exact alookup_map_updEntry_other d k k' v h
  · rw [alookup_append]
    have hone : alookup [(k, v)] k' = none := by
      rw [alookup, if_neg (fun hh => h hh.symm)]
      rfl
    cases hd : alookup d k' <;> simp [hone, hd]

/-! ## Python `round` on exact rationals

Python's `round` rounds to the nearest integer, ties to the even
integer (banker's rounding). The warehouse quantities are modelled as
exact rationals, so this is the exact counterpart of the float
`round` used by the source. -/

/-- Python's `round(q)` (round half to even) on an exact rational. -/
def pyround (q : ℚ) : ℤ :=
  let f := ⌊q⌋
  if q - f < 1/2 then f
  else if q - f > 1/2 then f + 1
  else if f % 2 = 0 then f else f + 1

theorem pyround_nonneg {q : ℚ} (h : 0 ≤ q) : 0 ≤ pyround q := by
  have hf : (0 : ℤ) ≤ ⌊q⌋ := Int.le_floor.mpr (by exact_mod_cast h)
  unfold pyround
  dsimp only
  split
  · exact hf
  · split
    · omega
    · split
      · exact hf
      · omega

/-! ## `config.py`: constants used by the requirement calculator -/

/-- `WORKFORCE_EFFICIENCY = 0.8` -/
def WORKFORCE_EFFICIENCY : ℚ := 8/10

/-- `HOURS_PER_SHIFT = 7.5` -/
def HOURS_PER_SHIFT : ℚ := 15/2

/-- A nested metrics map `operation → metric_name → minutes_per_unit`. -/
abbrev Metrics := List (String × List (String × ℚ))

/-- A forecast-data map `field → value`. -/
abbrev Forecast := List (String × ℚ)

/-- `DEFAULT_METRICS` from `config.py`. -/
def DEFAULT_METRICS : Metrics :=
  [("inbound",
     [("avg_offload_time", 15/4), ("avg_scan_time", 1/2),
      ("avg_putaway_time", 5/2), ("avg_lumper_time", 15/4)]),
   ("picking",
     [("avg_pick_time", 1), ("avg_scan_time", 3/20),
      ("avg_wrap_time", 5/2)]),
   ("load", [("avg_load_time_per_pallet", 15/4)])]

/-! ## `metrics_service.py`: the requirement calculator -/

/-- Python `d.get(k, default)` on a rational-valued dict. -/
def qget (d : List (String × ℚ)) (k : String) (default : ℚ) : ℚ :=
  (alookup d k).getD default

/-- The nested required-roles map produced by the calculator:
`operation → role_name → headcount`. -/
abbrev RequiredRoles := List (String × List (String × ℤ))

/-- `calculate_required_roles(metrics_summaries, forecast_data)` from
`metrics_service.py` (the non-exceptional path; the Python `try` body
is total once inputs are number-valued dicts).  The mutated
`final_roles` dict is embedded by computing each leaf and assembling
the fixed-shape result. -/
def calculate_required_roles (metrics_summaries : Metrics)
    (forecast_data : Forecast) : RequiredRoles :=
  let incoming_pallets := qget forecast_data "daily_incoming_pallets" 0
  let shipping_pallets0 := qget forecast_data "daily_shipping_pallets" 0
  let total_cases := qget forecast_data "daily_order_qty" 0
  let cases_to_pick := qget forecast_data "cases_to_pick" 0
  let staged_pallets := qget forecast_data "staged_pallets" 0
  let effective_work_mins_per_person :=
    HOURS_PER_SHIFT * 60 * WORKFORCE_EFFICIENCY
  let calculated_shipping_pallets := total_cases / 24
  let shipping_pallets := shipping_pallets0 + calculated_shipping_pallets
  let inbound_leaves : ℤ × ℤ × ℤ :=
    match alookup metrics_summaries "inbound" with
    | some inbound =>
      if 0 < incoming_pallets then
        let total_offload_time :=
          incoming_pallets * qget inbound "avg_offload_time" 3
        let total_scan_time :=
          incoming_pallets * qget inbound "avg_scan_time" (15/100)
        let total_putaway_time :=
          incoming_pallets * qget inbound "avg_putaway_time" (5/2)
        let total_lumper_time :=
          incoming_pallets * qget inbound "avg_lumper_time" (5/2)
        let inbound_forklift :=
          min 5 (pyround (total_offload_time / effective_work_mins_per_person))
        let putaway_forklift :=
          min 3 (pyround (total_putaway_time / effective_work_mins_per_person))
        (inbound_forklift + putaway_forklift,
         max 1 (pyround (total_scan_time / effective_work_mins_per_person)),
         min 5 (pyround (total_lumper_time / effective_work_mins_per_person)))
      else (0, 0, 0)
    | none => (0, 0, 0)
  let picking_forklift : ℤ :=
    match alookup metrics_summaries "picking" with
    | some picking =>
      if 0 < cases_to_pick then
        let total_pick_time := cases_to_pick * qget picking "avg_pick_time" 1
        let total_wrap_time :=
          calculated_shipping_pallets * qget picking "avg_wrap_time" (5/2)
        max 1 (pyround (total_pick_time / effective_work_mins_per_person)) +
          max 1 (pyround (total_wrap_time / effective_work_mins_per_person))
      else 0
    | none => 0
  let loading_forklift : ℤ :=
    match alookup metrics_summaries "load" with
    | some load =>
      let load_time_per_pallet := qget load "avg_load_time_per_pallet" (15/4)
      let staged_part : ℤ :=
        if staged_pallets ≠ 0 then
          max 1 (pyround
            (staged_pallets * load_time_per_pallet /
              effective_work_mins_per_person))
        else 0
      let forecast_part : ℤ :=
        if 0 < shipping_pallets then
          max 1 (pyround
            (shipping_pallets * load_time_per_pallet /
              effective_work_mins_per_person))
        else 0
      staged_part + forecast_part
    | none => 0
  let total_headcount :=
    inbound_leaves.1 + inbound_leaves.2.2 + inbound_leaves.2.1 +
      picking_forklift + loading_forklift
  let replenishment_staff : ℤ :=
    max 1 (pyround ((total_headcount : ℚ) * (1/10)))
  [("inbound",
     [("forklift_driver", inbound_leaves.1),
      ("receiver", inbound_leaves.2.1),
      ("lumper", inbound_leaves.2.2)]),
   ("picking", [("forklift_driver", picking_forklift)]),
   ("loading", [("forklift_driver", loading_forklift)]),
   ("replenishment", [("staff", replenishment_staff)])]

/-- The hardcoded fallback role map returned by the calculator's
`except` branch in `metrics_service.py`. -/
def FALLBACK_ROLES : RequiredRoles :=
  [("inbound", [("forklift_driver", 3), ("receiver", 2), ("lumper", 3)]),
   ("picking", [("forklift_driver", 2)]),
   ("loading", [("forklift_driver", 2)]),
   ("replenishment", [("staff", 1)])]

/-- The forecast with every field present and zero. -/
def zeroForecast : Forecast :=
  [("daily_incoming_pallets", 0), ("daily_shipping_pallets", 0),
   ("daily_order_qty", 0), ("cases_to_pick", 0), ("staged_pallets", 0)]

theorem alookup_mem {α : Type} {d : List (String × α)} {k : String}
    {v : α} (h : alookup d k = some v) : (k, v) ∈ d := by
  induction d with
  | nil => simp [alookup] at h
  | cons p rest ih =>
    obtain ⟨k', v'⟩ := p
    by_cases hk : k' = k
    · rw [alookup, if_pos hk] at h
      subst hk
      cases h
      exact List.mem_cons_self _ _
    · rw [alookup, if_neg hk] at h
      exact List.mem_cons_of_mem _ (ih h)

theorem qget_nonneg {d : List (String × ℚ)} {default : ℚ}
    (h : ∀ p ∈ d, 0 ≤ p.2) (hd : 0 ≤ default) (k : String) :
    0 ≤ qget d k default := by
  unfold qget
  cases hl : alookup d k with
  | none => simpa using hd
  | some v => simpa using h _ (alookup_mem hl)

theorem effective_mins_eq :
    HOURS_PER_SHIFT * 60 * WORKFORCE_EFFICIENCY = 360 := by
  norm_num [HOURS_PER_SHIFT, WORKFORCE_EFFICIENCY]

theorem max_one_nonneg (x : ℤ) : 0 ≤ max 1 x :=
  le_trans zero_le_one (le_max_left 1 x)

/-- C2: for every metrics map and forecast map with non-negative
values (the spec's validity condition on `ProductivityMetrics` and
`ForecastSignals`), every leaf of the calculated required-roles map is
a non-negative integer, and all four operations with their fixed role
keys appear in the output. -/
theorem calculate_required_roles_nonneg_shape (m : Metrics) (f : Forecast)
    (hm : ∀ p ∈ m, ∀ q ∈ p.2, 0 ≤ q.2) (hf : ∀ p ∈ f, 0 ≤ p.2) :
    ∃ ifd rcv lmp pfd lfd st : ℤ,
      calculate_required_roles m f =
        [("inbound",
           [("forklift_driver", ifd), ("receiver", rcv), ("lumper", lmp)]),
         ("picking", [("forklift_driver", pfd)]),
         ("loading", [("forklift_driver", lfd)]),
         ("replenishment", [("staff", st)])] ∧
      0 ≤ ifd ∧ 0 ≤ rcv ∧ 0 ≤ lmp ∧ 0 ≤ pfd ∧ 0 ≤ lfd ∧ 0 ≤ st := by
  have hinc := qget_nonneg hf le_rfl "daily_incoming_pallets"
  have hship := qget_nonneg hf le_rfl "daily_shipping_pallets"
  have hcases := qget_nonneg hf le_rfl "daily_order_qty"
  have hpick := qget_nonneg hf le_rfl "cases_to_pick"
  have hstag := qget_nonneg hf le_rfl "staged_pallets"
  unfold calculate_required_roles
  rw [effective_mins_eq]
  dsimp only
  refine ⟨_, _, _, _, _, _, rfl, ?_, ?_, ?_, ?_, ?_, max_one_nonneg _⟩
  · cases hmi : alookup m "inbound" with
    | none => simp
    | some inb =>
      have hvals : ∀ q ∈ inb, 0 ≤ q.2 := hm _ (alookup_mem hmi)
      simp only [hmi]
      split
      · dsimp only
        refine add_nonneg (le_min (by norm_num) ?_) (le_min (by norm_num) ?_) <;>
          exact pyround_nonneg (div_nonneg
            (mul_nonneg hinc (qget_nonneg hvals (by norm_num) _))
            (by norm_num))
      · simp
  · cases hmi : alookup m "inbound" with
    | none => simp
    | some inb =>
      simp only [hmi]
      split
      · exact max_one_nonneg _
      · simp
  · cases hmi : alookup m "inbound" with
    | none => simp
    | some inb =>
      have hvals : ∀ q ∈ inb, 0 ≤ q.2 := hm _ (alookup_mem hmi)
      simp only [hmi]
      split
      · dsimp only
        refine le_min (by norm_num) (pyround_nonneg (div_nonneg
          (mul_nonneg hinc (qget_nonneg hvals (by norm_num) _))
          (by norm_num)))
      · simp
  · cases hmi : alookup m "picking" with
    | none => simp
    | some pk =>
      simp only [hmi]
      split
      · exact add_nonneg (max_one_nonneg _) (max_one_nonneg _)
      · simp
  · cases hmi : alookup m "load" with
    | none => simp
    | some ld =>
      simp only [hmi]
      refine add_nonneg ?_ ?_ <;>
        · split
          · exact max_one_nonneg _
          · simp

theorem DEFAULT_METRICS_nonneg : ∀ p ∈ DEFAULT_METRICS, ∀ q ∈ p.2, 0 ≤ q.2 := by
  simp only [DEFAULT_METRICS, List.forall_mem_cons, List.forall_mem_nil]
  norm_num

theorem zeroForecast_nonneg : ∀ p ∈ zeroForecast, 0 ≤ p.2 := by
  simp only [zeroForecast, List.forall_mem_cons, List.forall_mem_nil]
  norm_num

/-- C2 witness: the non-negativity and shape property at the default
metrics and the all-zero forecast. -/
theorem calculate_required_roles_nonneg_shape_witness :
    ∃ ifd rcv lmp pfd lfd st : ℤ,
      calculate_required_roles DEFAULT_METRICS zeroForecast =
        [("inbound",
           [("forklift_driver", ifd), ("receiver", rcv), ("lumper", lmp)]),
         ("picking", [("forklift_driver", pfd)]),
         ("loading", [("forklift_driver", lfd)]),
         ("replenishment", [("staff", st)])] ∧
      0 ≤ ifd ∧ 0 ≤ rcv ∧ 0 ≤ lmp ∧ 0 ≤ pfd ∧ 0 ≤ lfd ∧ 0 ≤ st :=
  calculate_required_roles_nonneg_shape DEFAULT_METRICS zeroForecast
    DEFAULT_METRICS_nonneg zeroForecast_nonneg

/-- C3: whenever the metrics have an inbound entry with offload and
putaway times and the forecast has positive incoming pallets, the
inbound `forklift_driver` count is the sum of the two independently
capped sub-totals `min(5, round(n·offload/360)) + min(3,
round(n·putaway/360))`; concretely, 40 pallets at the default metrics
give 0 and the offload sub-total at 200 pallets is 2. -/
theorem inbound_forklift_two_capped_subtotals :
    (∀ (m : Metrics) (f : Forecast) (inb : List (String × ℚ)) (n a p : ℚ),
       alookup m "inbound" = some inb →
       alookup inb "avg_offload_time" = some a →
       alookup inb "avg_putaway_time" = some p →
       alookup f "daily_incoming_pallets" = some n →
       0 < n →
       ∃ l, alookup (calculate_required_roles m f) "inbound" = some l ∧
         alookup l "forklift_driver" =
           some (min 5 (pyround (n * a / 360)) +
             min 3 (pyround (n * p / 360)))) ∧
    (∃ l, alookup (calculate_required_roles DEFAULT_METRICS
           [("daily_incoming_pallets", 40)]) "inbound" = some l ∧
       alookup l "forklift_driver" = some 0) ∧
    min 5 (pyround (200 * (15/4) / 360)) = 2 := by
  refine ⟨?_, ?_, ?_⟩
  · intro m f inb n a p hmi ha hp hn hpos
    have hq : qget f "daily_incoming_pallets" 0 = n := by
      rw [qget, hn]; rfl
    have hqa : qget inb "avg_offload_time" 3 = a := by
      rw [qget, ha]; rfl
    have hqp : qget inb "avg_putaway_time" (5/2) = p := by
      rw [qget, hp]; rfl
    unfold calculate_required_roles
    dsimp only
    simp only [hmi, hq]
    simp only [if_pos hpos]
    rw [effective_mins_eq, hqa, hqp]
    exact ⟨_, rfl, rfl⟩
  · refine ⟨_, rfl, ?_⟩
    simp only [calculate_required_roles, DEFAULT_METRICS, qget]
    simp [alookup]
    norm_num [pyround, HOURS_PER_SHIFT, WORKFORCE_EFFICIENCY]
  · norm_num [pyround]

/-- C3 witness: the capped-subtotal formula applied at the default
metrics with 40 incoming pallets. -/
theorem inbound_forklift_two_capped_subtotals_witness :
    ∃ l, alookup (calculate_required_roles DEFAULT_METRICS
        [("daily_incoming_pallets", 40)]) "inbound" = some l ∧
      alookup l "forklift_driver" =
        some (min 5 (pyround (40 * (15/4) / 360)) +
          min 3 (pyround (40 * (5/2) / 360))) :=
  inbound_forklift_two_capped_subtotals.1 DEFAULT_METRICS
    [("daily_incoming_pallets", 40)]
    [("avg_offload_time", 15/4), ("avg_scan_time", 1/2),
     ("avg_putaway_time", 5/2), ("avg_lumper_time", 15/4)]
    40 (15/4) (5/2)
    (by simp [DEFAULT_METRICS, alookup]) (by simp [alookup])
    (by simp [alookup]) (by simp [alookup]) (by norm_num)

/-- C9: on well-formed inputs the calculator returns the computed
map, not the fallback: with the default metrics, the all-zero
forecast (and likewise a forecast with every field missing, each
treated as 0) yields all-zero role counts except `replenishment.staff
= 1`, and that computed map differs from the hardcoded
`FALLBACK_ROLES` of the `except` branch. -/
theorem calc_zero_forecast_computed_not_fallback :
    calculate_required_roles DEFAULT_METRICS zeroForecast =
      [("inbound",
         [("forklift_driver", 0), ("receiver", 0), ("lumper", 0)]),
       ("picking", [("forklift_driver", 0)]),
       ("loading", [("forklift_driver", 0)]),
       ("replenishment", [("staff", 1)])] ∧
    calculate_required_roles DEFAULT_METRICS [] =
      [("inbound",
         [("forklift_driver", 0), ("receiver", 0), ("lumper", 0)]),
       ("picking", [("forklift_driver", 0)]),
       ("loading", [("forklift_driver", 0)]),
       ("replenishment", [("staff", 1)])] ∧
    ([("inbound",
        [("forklift_driver", 0), ("receiver", 0), ("lumper", 0)]),
      ("picking", [("forklift_driver", 0)]),
      ("loading", [("forklift_driver", 0)]),
      ("replenishment", [("staff", 1)])] : RequiredRoles) ≠
      FALLBACK_ROLES := by
  refine ⟨?_, ?_, by decide⟩ <;>
    · simp only [calculate_required_roles, DEFAULT_METRICS, zeroForecast, qget]
      simp [alookup]
      norm_num [pyround, HOURS_PER_SHIFT, WORKFORCE_EFFICIENCY]

/-! ## `api_client.py`: weekend-aware date range resolver

A datetime is embedded as a day index (days since an epoch Monday, so
that the Python `weekday()` of day `d` is `d % 7`, Monday = 0,
Saturday = 5, Sunday = 6) together with a time of day. -/

/-- A Python `datetime` value as produced by the resolver. -/
structure PyDateTime where
  day : ℕ
  hour : ℕ
  minute : ℕ
  second : ℕ
  deriving DecidableEq, Repr

/-- The weekend skip applied by `get_tomorrow_date_range`: Saturday
moves 2 days forward, Sunday 1 day forward. -/
def skipWeekend (d : ℕ) : ℕ :=
  if d % 7 = 5 then d + 2 else if d % 7 = 6 then d + 1 else d

/-- `get_tomorrow_date_range()` from `api_client.py`, as a function of
the current day (midnight of "today").  Returns
`(tomorrow_start, tomorrow_end, day_after_start, day_after_end)`. -/
def get_tomorrow_date_range (today : ℕ) :
    PyDateTime × PyDateTime × PyDateTime × PyDateTime :=
  let tomorrow := skipWeekend (today + 1)
  let day_after := skipWeekend (today + 2)
  let day_after :=
    if day_after ≤ tomorrow then skipWeekend (tomorrow + 1) else day_after
  (⟨tomorrow, 0, 0, 0⟩, ⟨tomorrow, 23, 59, 59⟩,
   ⟨day_after, 0, 0, 0⟩, ⟨day_after, 23, 59, 59⟩)

/-- C7: when "today" is a Friday, "tomorrow" resolves to the following
Monday (the first Monday after today, `today + 3`) and "day after" to
the following Tuesday (`today + 4`), each expanded to a
`[00:00:00, 23:59:59]` window. -/
theorem friday_resolves_to_monday_tuesday (today : ℕ)
    (h : today % 7 = 4) :
    get_tomorrow_date_range today =
      (⟨today + 3, 0, 0, 0⟩, ⟨today + 3, 23, 59, 59⟩,
       ⟨today + 4, 0, 0, 0⟩, ⟨today + 4, 23, 59, 59⟩) ∧
    (today + 3) % 7 = 0 ∧ (today + 4) % 7 = 1 ∧
    (∀ d, today < d → d % 7 = 0 → today + 3 ≤ d) := by
  have h1 : (today + 1) % 7 = 5 := by omega
  have h2 : (today + 2) % 7 = 6 := by omega
  have h3 : (today + 3) % 7 = 0 := by omega
  have h4 : (today + 4) % 7 = 1 := by omega
  refine ⟨?_, h3, h4, ?_⟩
  · unfold get_tomorrow_date_range skipWeekend
    simp only [Prod.mk.injEq, PyDateTime.mk.injEq]
    split_ifs <;> first | omega | trivial
  · intro d hd hmod
    omega

/-- C7 witness: the Friday rule at the concrete day index 4 (the
Friday of the epoch week). -/
theorem friday_resolves_to_monday_tuesday_witness :
    get_tomorrow_date_range 4 =
      (⟨7, 0, 0, 0⟩, ⟨7, 23, 59, 59⟩, ⟨8, 0, 0, 0⟩, ⟨8, 23, 59, 59⟩) ∧
    7 % 7 = 0 ∧ 8 % 7 = 1 ∧ (∀ d, 4 < d → d % 7 = 0 → 7 ≤ d) := by
  have h := friday_resolves_to_monday_tuesday 4 (by decide)
  exact ⟨h.1, h.2.1, h.2.2.1, fun d hd hm => h.2.2.2 d hd hm⟩

/-! ## `schedule_service.py`: shortage computation of `run_scheduler`

In the source, the `if assigned_count < required_count` check sits at
the level of the *outer* loop (dedented out of the inner
`for role, required_count in roles.items()` loop), so it runs once per
operation, over the loop variables left by that operation's *last*
role.  The embedding threads those loop variables (`role_key`,
`assigned_count`, `required_count`) explicitly; `none` means they were
never assigned (a Python `NameError`, modelled as an error). -/

/-- One pass of the inner loop of the shortage computation: the values
of the loop variables after iterating over `roles` (the last role's
values, or the carried-in ones when `roles` is empty). -/
def innerLoopVars (operation : String) (roles : List (String × ℤ))
    (assigned : List (String × List String))
    (carry : Option (String × ℤ × ℤ)) : Option (String × ℤ × ℤ) :=
  roles.foldl
    (fun _ rc =>
      let role_key := operation ++ "_" ++ rc.1
      let assigned_count : ℤ := ((alookup assigned role_key).getD []).length
      some (role_key, assigned_count, rc.2))
    carry

/-- The shortage loop of `run_scheduler` (schedule_service.py,
"Calculate shortages only for tomorrow"), exactly as indented in the
source: the comparison runs once per operation, after the inner loop. -/
def compute_shortages (required : RequiredRoles)
    (assigned : List (String × List String)) :
    Except Unit (List (String × ℤ)) :=
  let final := required.foldl
    (fun (st : Except Unit (List (String × ℤ) × Option (String × ℤ × ℤ)))
         opRoles =>
      match st with
      | .error e => .error e
      | .ok (shortages, carry) =>
        match innerLoopVars opRoles.1 opRoles.2 assigned carry with
        | none => .error ()
        | some (role_key, assigned_count, required_count) =>
          .ok (if assigned_count < required_count then
                 dictSet shortages role_key (required_count - assigned_count)
               else shortages,
               some (role_key, assigned_count, required_count)))
    (.ok ([], none))
  match final with
  | .error e => .error e
  | .ok (shortages, _) => .ok shortages

/-- Modelled from the spec's words ("shortage computation is
`required − len(assigned)` per role_key"): the per-role-key shortage
map the claim describes, for comparison with `compute_shortages`. -/
def shortagesPerRoleSpec (required : RequiredRoles)
    (assigned : List (String × List String)) : List (String × ℤ) :=
  required.foldl
    (fun shortages opRoles =>
      opRoles.2.foldl
        (fun shortages rc =>
          let role_key := opRoles.1 ++ "_" ++ rc.1
          let assigned_count : ℤ :=
            ((alookup assigned role_key).getD []).length
          if assigned_count < rc.2 then
            dictSet shortages role_key (rc.2 - assigned_count)
          else shortages)
        shortages)
    []

/-- C5: the dedented shortage check of `run_scheduler` misses
under-staffed roles that are not an operation's last role.  With
inbound requiring 2 forklift drivers (0 assigned), 1 receiver (1
assigned) and 0 lumpers, the source code produces an *empty* shortage
map, while the per-role computation the claim describes reports the
forklift-driver shortage of 2. -/
theorem shortage_dedent_code_behavior :
    compute_shortages
        [("inbound",
           [("forklift_driver", 2), ("receiver", 1), ("lumper", 0)])]
        [("inbound_receiver", ["e1"])] = Except.ok [] ∧
    shortagesPerRoleSpec
        [("inbound",
           [("forklift_driver", 2), ("receiver", 1), ("lumper", 0)])]
        [("inbound_receiver", ["e1"])] =
      [("inbound_forklift_driver", 2)] :=
  ⟨rfl, rfl⟩

/-! ## `staffing_history.py`: moving averages over staffing history

A staffing-history record is `(date, flattened role counts)`.  The
records handed to `calculate_moving_averages` are the ones
`get_staffing_history` returned for the requested range; the averaging
logic is embedded over that list. -/

/-- A staffing-history record: date string and flattened role map. -/
abbrev HistoryRecord := String × List (String × ℤ)

/-- Python `round(x, 1)`: round to one decimal place, ties to even. -/
def round1 (q : ℚ) : ℚ := (pyround (q * 10) : ℚ) / 10

/-- The body of the `for role, count in record["roles"].items()` loop
of `calculate_moving_averages`: ensure the role is present in both
dicts, then add the count to `role_totals[role]` and bump
`role_counts[role]`. -/
def addRoleCount (tc : List (String × ℤ) × List (String × ℕ))
    (rc : String × ℤ) : List (String × ℤ) × List (String × ℕ) :=
  let totals := if (alookup tc.1 rc.1).isSome then tc.1 else tc.1 ++ [(rc.1, 0)]
  let counts := if (alookup tc.2 rc.1).isSome then tc.2 else tc.2 ++ [(rc.1, 0)]
  (dictSet totals rc.1 ((alookup totals rc.1).getD 0 + rc.2),
   dictSet counts rc.1 ((alookup counts rc.1).getD 0 + 1))

/-- Processing one history record accumulates all its role counts. -/
def processRecord (tc : List (String × ℤ) × List (String × ℕ))
    (rec : HistoryRecord) : List (String × ℤ) × List (String × ℕ) :=
  rec.2.foldl addRoleCount tc

/-- The body of the final `for role in role_totals` loop: emit
`round(total/count, 1)` for roles with a positive count. -/
def avgStep (counts : List (String × ℕ)) (avgs : List (String × ℚ))
    (rt : String × ℤ) : List (String × ℚ) :=
  if 0 < (alookup counts rt.1).getD 0 then
    dictSet avgs rt.1
      (round1 ((rt.2 : ℚ) / ((alookup counts rt.1).getD 0 : ℚ)))
  else avgs

/-- `calculate_moving_averages` from `staffing_history.py`, over the
in-range history records: per role, `round(total/count, 1)` in the
insertion order of `role_totals`; empty mapping when no history. -/
def calculate_moving_averages (history : List HistoryRecord) :
    List (String × ℚ) :=
  if history = [] then []
  else
    let tc := history.foldl processRecord ([], [])
    tc.1.foldl (avgStep tc.2) []

/-- The records of `history` that contain `key` in their role map. -/
def recordsWithRole (history : List HistoryRecord) (key : String) :
    List HistoryRecord :=
  history.filter (fun rec => (alookup rec.2 key).isSome)

/-- Sum of `key`'s counts over the records that contain it. -/
def roleSum (history : List HistoryRecord) (key : String) : ℤ :=
  ((recordsWithRole history key).map
    (fun rec => (alookup rec.2 key).getD 0)).sum

/-- Number of records that contain `key`. -/
def roleCount (history : List HistoryRecord) (key : String) : ℕ :=
  (recordsWithRole history key).length

theorem alookup_eq_none_iff {α : Type} (d : List (String × α)) (k : String) :
    alookup d k = none ↔ k ∉ d.map Prod.fst := by
  induction d with
  | nil => simp [alookup]
  | cons p rest ih =>
    obtain ⟨k', v⟩ := p
    by_cases hk : k' = k
    · subst hk
      simp [alookup]
    · rw [alookup, if_neg hk]
      simp only [List.map_cons, List.mem_cons]
      rw [ih]
      constructor
      · rintro hn (h | h)
        · exact hk h.symm
        · exact hn h
      · intro hn
        exact fun h => hn (Or.inr h)

theorem alookup_addRoleCount_totals (T : List (String × ℤ))
    (C : List (String × ℕ)) (r : String) (c : ℤ) (k : String) :
    alookup (addRoleCount (T, C) (r, c)).1 k =
      if k = r then some ((alookup T r).getD 0 + c) else alookup T k := by
  unfold addRoleCount
  dsimp only
  by_cases hk : k = r
  · subst hk
    cases hT : alookup T k with
    | some v => simp [hT, alookup_dictSet_self]
    | none => simp [hT, alookup_dictSet_self, alookup_append, alookup]
  · cases hT : alookup T r with
    | some v => simp [hk, hT, alookup_dictSet_other _ _ _ _ hk]
    | none =>
      simp [hk, hT, alookup_dictSet_other _ _ _ _ hk, alookup_append,
        alookup, Ne.symm hk]

theorem alookup_addRoleCount_counts (T : List (String × ℤ))
    (C : List (String × ℕ)) (r : String) (c : ℤ) (k : String) :
    alookup (addRoleCount (T, C) (r, c)).2 k =
      if k = r then some ((alookup C r).getD 0 + 1) else alookup C k := by
  unfold addRoleCount
  dsimp only
  by_cases hk : k = r
  · subst hk
    cases hC : alookup C k with
    | some v => simp [hC, alookup_dictSet_self]
    | none => simp [hC, alookup_dictSet_self, alookup_append, alookup]
  · cases hC : alookup C r with
    | some v => simp [hk, hC, alookup_dictSet_other _ _ _ _ hk]
    | none =>
      simp [hk, hC, alookup_dictSet_other _ _ _ _ hk, alookup_append,
        alookup, Ne.symm hk]

theorem alookup_foldRoles_totals (roles : List (String × ℤ))
    (T : List (String × ℤ)) (C : List (String × ℕ)) (k : String)
    (hnd : (roles.map Prod.fst).Nodup) :
    alookup (roles.foldl addRoleCount (T, C)).1 k =
      match alookup roles k with
      | some v => some ((alookup T k).getD 0 + v)
      | none => alookup T k := by
  induction roles generalizing T C with
  | nil => simp [alookup]
  | cons rc roles' ih =>
    obtain ⟨r, c⟩ := rc
    rw [List.map_cons, List.nodup_cons] at hnd
    obtain ⟨hr, hnd'⟩ := hnd
    rw [List.foldl_cons]
    have heta : addRoleCount (T, C) (r, c) =
        ((addRoleCount (T, C) (r, c)).1, (addRoleCount (T, C) (r, c)).2) := rfl
    rw [heta, ih _ _ hnd', alookup_addRoleCount_totals]
    by_cases hk : k = r
    · subst hk
      have h1 : alookup roles' k = none := (alookup_eq_none_iff _ _).mpr hr
      rw [h1, alookup]
      simp
    · have h2 : alookup ((r, c) :: roles') k = alookup roles' k := by
        rw [alookup, if_neg (fun h => hk h.symm)]
      rw [h2, if_neg hk]

theorem alookup_foldRoles_counts (roles : List (String × ℤ))
    (T : List (String × ℤ)) (C : List (String × ℕ)) (k : String)
    (hnd : (roles.map Prod.fst).Nodup) :
    alookup (roles.foldl addRoleCount (T, C)).2 k =
      if (alookup roles k).isSome then some ((alookup C k).getD 0 + 1)
      else alookup C k := by
  induction roles generalizing T C with
  | nil => simp [alookup]
  | cons rc roles' ih =>
    obtain ⟨r, c⟩ := rc
    rw [List.map_cons, List.nodup_cons] at hnd
    obtain ⟨hr, hnd'⟩ := hnd
    rw [List.foldl_cons]
    have heta : addRoleCount (T, C) (r, c) =
        ((addRoleCount (T, C) (r, c)).1, (addRoleCount (T, C) (r, c)).2) := rfl
    rw [heta, ih _ _ hnd', alookup_addRoleCount_counts]
    by_cases hk : k = r
    · subst hk
      have h1 : alookup roles' k = none := (alookup_eq_none_iff _ _).mpr hr
      rw [h1, alookup]
      simp
    · have h2 : alookup ((r, c) :: roles') k = alookup roles' k := by
        rw [alookup, if_neg (fun h => hk h.symm)]
      rw [h2, if_neg hk]

theorem recordsWithRole_cons (rec : HistoryRecord)
    (rest : List HistoryRecord) (k : String) :
    recordsWithRole (rec :: rest) k =
      if (alookup rec.2 k).isSome then rec :: recordsWithRole rest k
      else recordsWithRole rest k := by
  rw [recordsWithRole, List.filter_cons]
  cases h : (alookup rec.2 k).isSome <;> simp [h, recordsWithRole]

theorem roleSum_of_count_zero (history : List HistoryRecord) (k : String)
    (h : roleCount history k = 0) : roleSum history k = 0 := by
  rw [roleCount] at h
  rw [roleSum, List.length_eq_zero.mp h]
  rfl

theorem alookup_foldHistory_totals (history : List HistoryRecord)
    (T : List (String × ℤ)) (C : List (String × ℕ)) (k : String)
    (hnd : ∀ rec ∈ history, (rec.2.map Prod.fst).Nodup) :
    alookup (history.foldl processRecord (T, C)).1 k =
      if roleCount history k = 0 then alookup T k
      else some ((alookup T k).getD 0 + roleSum history k) := by
  induction history generalizing T C with
  | nil => simp [roleCount, recordsWithRole]
  | cons rec rest ih =>
    have hrec := hnd rec (List.mem_cons_self _ _)
    have hrest : ∀ r ∈ rest, (r.2.map Prod.fst).Nodup :=
      fun r hr => hnd r (List.mem_cons_of_mem _ hr)
    rw [List.foldl_cons]
    have heta : processRecord (T, C) rec =
        ((processRecord (T, C) rec).1, (processRecord (T, C) rec).2) := rfl
    rw [heta, ih _ _ hrest]
    have htot := alookup_foldRoles_totals rec.2 T C k hrec
    cases hrk : alookup rec.2 k with
    | some v =>
      rw [hrk] at htot
      have hcount : roleCount (rec :: rest) k = roleCount rest k + 1 := by
        rw [roleCount, roleCount, recordsWithRole_cons,
          if_pos (by rw [hrk]; rfl)]
        simp [Nat.add_comm]
      have hsum : roleSum (rec :: rest) k = v + roleSum rest k := by
        rw [roleSum, roleSum, recordsWithRole_cons, if_pos (by rw [hrk]; rfl)]
        simp [hrk]
      rw [hcount, hsum]
      rw [show (processRecord (T, C) rec).1 = (rec.2.foldl addRoleCount (T, C)).1 from rfl]
      rw [htot]
      by_cases hz : roleCount rest k = 0
      · rw [if_pos hz, if_neg (by omega)]
        rw [roleSum_of_count_zero rest k hz]
        simp
      · rw [if_neg hz, if_neg (by omega)]
        simp [add_assoc]
    | none =>
      rw [hrk] at htot
      have hcount : roleCount (rec :: rest) k = roleCount rest k := by
        rw [roleCount, roleCount, recordsWithRole_cons,
          if_neg (by rw [hrk]; simp)]
      have hsum : roleSum (rec :: rest) k = roleSum rest k := by
        rw [roleSum, roleSum, recordsWithRole_cons,
          if_neg (by rw [hrk]; simp)]
      rw [hcount, hsum]
      rw [show (processRecord (T, C) rec).1 = (rec.2.foldl addRoleCount (T, C)).1 from rfl]
      rw [htot]

theorem alookup_foldHistory_counts (history : List HistoryRecord)
    (T : List (String × ℤ)) (C : List (String × ℕ)) (k : String)
    (hnd : ∀ rec ∈ history, (rec.2.map Prod.fst).Nodup) :
    alookup (history.foldl processRecord (T, C)).2 k =
      if roleCount history k = 0 then alookup C k
      else some ((alookup C k).getD 0 + roleCount history k) := by
  induction history generalizing T C with
  | nil => simp [roleCount, recordsWithRole]
  | cons rec rest ih =>
    have hrec := hnd rec (List.mem_cons_self _ _)
    have hrest : ∀ r ∈ rest, (r.2.map Prod.fst).Nodup :=
      fun r hr => hnd r (List.mem_cons_of_mem _ hr)
    rw [List.foldl_cons]
    have heta : processRecord (T, C) rec =
        ((processRecord (T, C) rec).1, (processRecord (T, C) rec).2) := rfl
    rw [heta, ih _ _ hrest]
    have hcnt := alookup_foldRoles_counts rec.2 T C k hrec
    cases hrk : alookup rec.2 k with
    | some v =>
      rw [if_pos (by rw [hrk]; rfl)] at hcnt
      have hcount : roleCount (rec :: rest) k = roleCount rest k + 1 := by
        rw [roleCount, roleCount, recordsWithRole_cons,
          if_pos (by rw [hrk]; rfl)]
        simp [Nat.add_comm]
      rw [hcount]
      rw [show (processRecord (T, C) rec).2 = (rec.2.foldl addRoleCount (T, C)).2 from rfl]
      rw [hcnt]
      by_cases hz : roleCount rest k = 0
      · rw [if_pos hz, if_neg (by omega)]
        simp [hz]
      · rw [if_neg hz, if_neg (by omega)]
        simp
        omega
    | none =>
      rw [if_neg (by rw [hrk]; simp)] at hcnt
      have hcount : roleCount (rec :: rest) k = roleCount rest k := by
        rw [roleCount, roleCount, recordsWithRole_cons,
          if_neg (by rw [hrk]; simp)]
      rw [hcount]
      rw [show (processRecord (T, C) rec).2 = (rec.2.foldl addRoleCount (T, C)).2 from rfl]
      rw [hcnt]

theorem keys_map_updEntry {α : Type} (d : List (String × α))
    (k : String) (v : α) :
    (d.map (updEntry k v)).map Prod.fst = d.map Prod.fst := by
  induction d with
  | nil => rfl
  | cons p rest ih =>
    obtain ⟨k0, v0⟩ := p
    by_cases hk : k0 = k
    · subst hk
      simp [updEntry, ih]
    · simp [updEntry, hk, ih]

theorem keys_dictSet_nodup {α : Type} (d : List (String × α))
    (k : String) (v : α) (h : (d.map Prod.fst).Nodup) :
    ((dictSet d k v).map Prod.fst).Nodup := by
  unfold dictSet
  split
  · rw [keys_map_updEntry]
    exact h
  · rename_i hn
    have hnone : alookup d k = none := by
      cases hd : alookup d k with
      | none => rfl
      | some w => rw [hd] at hn; simp at hn
    have hk : k ∉ d.map Prod.fst := (alookup_eq_none_iff _ _).mp hnone
    rw [List.map_append]
    simp [List.nodup_append, h, hk]

theorem keys_addRoleCount_nodup (T : List (String × ℤ))
    (C : List (String × ℕ)) (rc : String × ℤ)
    (h : (T.map Prod.fst).Nodup) :
    ((addRoleCount (T, C) rc).1.map Prod.fst).Nodup := by
  unfold addRoleCount
  dsimp only
  cases hT : alookup T rc.1 with
  | some v =>
    rw [if_pos (by rfl)]
    exact keys_dictSet_nodup _ _ _ h
  | none =>
    rw [if_neg (by simp)]
    refine keys_dictSet_nodup _ _ _ ?_
    have hk : rc.1 ∉ T.map Prod.fst := (alookup_eq_none_iff _ _).mp hT
    rw [List.map_append]
    simp [List.nodup_append, h, hk]

theorem keys_foldRoles_nodup (roles : List (String × ℤ))
    (T : List (String × ℤ)) (C : List (String × ℕ))
    (h : (T.map Prod.fst).Nodup) :
    ((roles.foldl addRoleCount (T, C)).1.map Prod.fst).Nodup := by
  induction roles generalizing T C with
  | nil => exact h
  | cons rc roles' ih =>
    rw [List.foldl_cons]
    have heta : addRoleCount (T, C) rc =
        ((addRoleCount (T, C) rc).1, (addRoleCount (T, C) rc).2) := rfl
    rw [heta]
    exact ih _ _ (keys_addRoleCount_nodup T C rc h)

theorem keys_foldHistory_nodup (history : List HistoryRecord)
    (T : List (String × ℤ)) (C : List (String × ℕ))
    (h : (T.map Prod.fst).Nodup) :
    ((history.foldl processRecord (T, C)).1.map Prod.fst).Nodup := by
  induction history generalizing T C with
  | nil => exact h
  | cons rec rest ih =>
    rw [List.foldl_cons]
    have heta : processRecord (T, C) rec =
        ((processRecord (T, C) rec).1, (processRecord (T, C) rec).2) := rfl
    rw [heta]
    exact ih _ _ (keys_foldRoles_nodup rec.2 T C h)

theorem alookup_avgFold (totals : List (String × ℤ))
    (counts : List (String × ℕ)) (avgs : List (String × ℚ)) (k : String)
    (hnd : (totals.map Prod.fst).Nodup) :
    alookup (totals.foldl (avgStep counts) avgs) k =
      match alookup totals k with
      | some t =>
        if 0 < (alookup counts k).getD 0 then
          some (round1 ((t : ℚ) / ((alookup counts k).getD 0 : ℚ)))
        else alookup avgs k
      | none => alookup avgs k := by
  induction totals generalizing avgs with
  | nil => simp [alookup]
  | cons rt rest ih =>
    obtain ⟨r, t⟩ := rt
    rw [List.map_cons, List.nodup_cons] at hnd
    obtain ⟨hr, hnd'⟩ := hnd
    rw [List.foldl_cons, ih _ hnd']
    by_cases hk : k = r
    · subst hk
      have h1 : alookup rest k = none := (alookup_eq_none_iff _ _).mpr hr
      rw [h1, alookup, if_pos rfl]
      unfold avgStep
      dsimp only
      by_cases hc : 0 < (alookup counts k).getD 0
      · rw [if_pos hc, if_pos hc, alookup_dictSet_self]
      · rw [if_neg hc, if_neg hc]
    · have h2 : alookup ((r, t) :: rest) k = alookup rest k := by
        rw [alookup, if_neg (fun h => hk h.symm)]
      rw [h2]
      have h3 : alookup (avgStep counts avgs (r, t)) k = alookup avgs k := by
        unfold avgStep
        dsimp only
        split
        · exact alookup_dictSet_other _ _ _ _ hk
        · rfl
      rw [h3]

/-- C6: `calculate_moving_averages` returns, per role key, the
unweighted mean of that role's counts over exactly the records that
contain the key (denominator = number of records containing the key),
rounded to one decimal; the empty history yields the empty mapping;
and two records with counts 3 and 5 average to 4.0. -/
theorem moving_average_per_role :
    (∀ (history : List HistoryRecord) (key : String),
       (∀ rec ∈ history, (rec.2.map Prod.fst).Nodup) →
       alookup (calculate_moving_averages history) key =
         if roleCount history key = 0 then none
         else some (round1 ((roleSum history key : ℚ) /
           (roleCount history key : ℚ)))) ∧
    calculate_moving_averages [] = [] ∧
    alookup (calculate_moving_averages
        [("d1", [("inbound_forklift_driver", 3)]),
         ("d2", [("inbound_forklift_driver", 5)])])
      "inbound_forklift_driver" = some 4 := by
  have hmain : ∀ (history : List HistoryRecord) (key : String),
      (∀ rec ∈ history, (rec.2.map Prod.fst).Nodup) →
      alookup (calculate_moving_averages history) key =
        if roleCount history key = 0 then none
        else some (round1 ((roleSum history key : ℚ) /
          (roleCount history key : ℚ))) := by
    intro history key hnd
    by_cases hhist : history = []
    · subst hhist
      rw [calculate_moving_averages, if_pos rfl]
      have h0 : roleCount ([] : List HistoryRecord) key = 0 := rfl
      rw [h0, if_pos rfl]
      rfl
    · rw [calculate_moving_averages, if_neg hhist]
      dsimp only
      rw [alookup_avgFold _ _ _ _
        (keys_foldHistory_nodup history [] [] (by simp))]
      rw [alookup_foldHistory_totals history [] [] key hnd]
      rw [alookup_foldHistory_counts history [] [] key hnd]
      by_cases hz : roleCount history key = 0
      · rw [if_pos hz, if_pos hz, if_pos hz]
        rfl
      · rw [if_neg hz, if_neg hz, if_neg hz]
        have hlz : alookup ([] : List (String × ℤ)) key = none := rfl
        have hlc : alookup ([] : List (String × ℕ)) key = none := rfl
        rw [hlz, hlc]
        dsimp only [Option.getD_none, Option.getD_some]
        simp [Nat.pos_of_ne_zero hz]
  refine ⟨hmain, rfl, ?_⟩
  rw [hmain _ _ (by decide)]
  have hc : roleCount
      [("d1", [("inbound_forklift_driver", 3)]),
       ("d2", [("inbound_forklift_driver", 5)])]
      "inbound_forklift_driver" = 2 := by decide
  have hs : roleSum
      [("d1", [("inbound_forklift_driver", 3)]),
       ("d2", [("inbound_forklift_driver", 5)])]
      "inbound_forklift_driver" = 8 := by decide
  rw [hc, hs, if_neg (by norm_num)]
  norm_num [round1, pyround]

/-- C6 witness: the per-role moving-average formula applied to the
two-record history of the claim. -/
theorem moving_average_per_role_witness :
    alookup (calculate_moving_averages
        [("d1", [("inbound_forklift_driver", 3)]),
         ("d2", [("inbound_forklift_driver", 5)])])
      "inbound_forklift_driver" =
      if roleCount
          [("d1", [("inbound_forklift_driver", 3)]),
           ("d2", [("inbound_forklift_driver", 5)])]
          "inbound_forklift_driver" = 0 then none
      else some (round1 ((roleSum
          [("d1", [("inbound_forklift_driver", 3)]),
           ("d2", [("inbound_forklift_driver", 5)])]
          "inbound_forklift_driver" : ℚ) /
        (roleCount
          [("d1", [("inbound_forklift_driver", 3)]),
           ("d2", [("inbound_forklift_driver", 5)])]
          "inbound_forklift_driver" : ℚ))) :=
  moving_average_per_role.1
    [("d1", [("inbound_forklift_driver", 3)]),
     ("d2", [("inbound_forklift_driver", 5)])]
    "inbound_forklift_driver" (by decide)

/-! ## `database.py`: employee metadata and availability

ChromaDB metadata values are embedded as a small universe of Python
values (`PVal`); a metadata record is a string-keyed dict of them.
`is_employee_available` evaluates Python truthiness and the `in`
operator, whose `TypeError` on a non-container (caught by the
function's `except`) is modelled as an `Except` error. -/

/-- A Python value stored in employee metadata. -/
inductive PVal : Type
  | none
  | bool (b : Bool)
  | int (n : ℤ)
  | str (s : String)
  | list (xs : List PVal)

/-- An employee metadata record. -/
abbrev Metadata := List (String × PVal)

/-- Python `metadata.get(key, default)`. -/
def mget (m : Metadata) (k : String) (default : PVal) : PVal :=
  (alookup m k).getD default

/-- Python truthiness of a stored value. -/
def truthy : PVal → Bool
  | .none => false
  | .bool b => b
  | .int n => n ≠ 0
  | .str s => s ≠ ""
  | .list xs => !xs.isEmpty

/-- Whether a character is one of Python's `\s` / `str.strip()`
whitespace characters (ASCII range). -/
def pyIsSpace (c : Char) : Bool :=
  c = ' ' || c = '\t' || c = '\n' || c = '\r' || c = '\x0b' || c = '\x0c'

/-- `isPrefixL s t`: `s` is a prefix of `t`. -/
def isPrefixL : List Char → List Char → Bool
  | [], _ => true
  | _ :: _, [] => false
  | a :: as, b :: bs => a = b && isPrefixL as bs

/-- `isInfixL s t`: `s` occurs contiguously inside `t` (Python
`s in t` on strings). -/
def isInfixL (s : List Char) : List Char → Bool
  | [] => isPrefixL s []
  | c :: ts => isPrefixL s (c :: ts) || isInfixL s ts

/-- Python `sub in s` for strings. -/
def pyStrIn (sub s : String) : Bool := isInfixL sub.data s.data

/-- Python `x in container` for a string `x`: list membership compares
`x == element` (false for non-strings); string membership is substring
containment; any other container raises `TypeError` (`.error`). -/
def pyContains (container : PVal) (x : String) : Except Unit Bool :=
  match container with
  | .list xs =>
    .ok (xs.any (fun v => match v with | .str t => t = x | _ => false))
  | .str t => .ok (pyStrIn x t)
  | _ => .error ()

/-- The body of `is_employee_available` before its `except` handler. -/
def availability_checks (m : Metadata) : Except Unit Bool :=
  if !truthy (mget m "active" (.bool true)) then .ok false
  else if truthy (mget m "on_leave" (.bool false)) then .ok false
  else
    let shift_preferences := mget m "shift_preferences" (.list [])
    if truthy shift_preferences then
      match pyContains shift_preferences "day" with
      | .error e => .error e
      | .ok c => if !c then .ok false else .ok true
    else .ok true

/-- `is_employee_available(metadata)` from `database.py`: the checks
above, with any exception caught and turned into `False`. -/
def is_employee_available (m : Metadata) : Bool :=
  match availability_checks m with
  | .ok b => b
  | .error _ => false

/-- C10: an employee whose metadata lacks the `active`, `on_leave` and
`shift_preferences` keys is treated as available (defaults: active,
not on leave, no shift restriction); and on malformed metadata — a
truthy `shift_preferences` that is neither a list nor a string, where
Python's `in` raises `TypeError` — the function returns `false`
rather than propagating the error. -/
theorem is_employee_available_defaults :
    (∀ m : Metadata,
       alookup m "active" = Option.none →
       alookup m "on_leave" = Option.none →
       alookup m "shift_preferences" = Option.none →
       is_employee_available m = true) ∧
    (∀ (m : Metadata) (sp : PVal),
       alookup m "shift_preferences" = some sp →
       truthy sp = true →
       (∀ xs, sp ≠ .list xs) →
       (∀ s, sp ≠ .str s) →
       is_employee_available m = false) := by
  constructor
  · intro m h1 h2 h3
    rw [is_employee_available, availability_checks, mget, mget, mget,
      h1, h2, h3]
    rfl
  · intro m sp hsp htr hxs hs
    have hcont : pyContains sp "day" = .error () := by
      cases sp with
      | none => simp [truthy] at htr
      | bool b => rfl
      | int n => rfl
      | str s => exact absurd rfl (hs s)
      | list xs => exact absurd rfl (hxs xs)
    rw [is_employee_available, availability_checks]
    by_cases hact : truthy (mget m "active" (.bool true))
    · rw [if_neg (by simp [hact])]
      by_cases hol : truthy (mget m "on_leave" (.bool false))
      · rw [if_pos hol]
      · rw [if_neg hol]
        dsimp only
        rw [mget, hsp]
        dsimp only [Option.getD_some]
        rw [if_pos htr, hcont]
    · rw [if_pos (by simp [hact])]

/-- C10 witness: metadata with none of the three keys is available,
and metadata whose `shift_preferences` is the integer 5 yields
`false` without an error. -/
theorem is_employee_available_defaults_witness :
    is_employee_available [("original_job_title", .str "Picker")] = true ∧
    is_employee_available [("shift_preferences", .int 5)] = false :=
  ⟨(is_employee_available_defaults.1 [("original_job_title", .str "Picker")]
      rfl rfl rfl),
   (is_employee_available_defaults.2 [("shift_preferences", .int 5)]
      (.int 5) rfl rfl (fun _ h => by cases h) (fun _ h => by cases h))⟩

/-! ## `database.py`: role normalization and employee retrieval -/

/-- Lower-case a character list (Python `str.lower()`, ASCII). -/
def lowerL (l : List Char) : List Char := l.map Char.toLower

/-- Lower-case a string. -/
def lowerStr (s : String) : String := ⟨lowerL s.data⟩

/-- Python `str.strip()`. -/
def stripL (l : List Char) : List Char :=
  ((l.dropWhile pyIsSpace).reverse.dropWhile pyIsSpace).reverse

/-- `re.sub(r's$', '', role)`: drop one trailing `s`. -/
def dropTrailingS (l : List Char) : List Char :=
  if l.getLast? = some 's' then l.dropLast else l

/-- `re.sub(r'\s+', '_', role)`: each maximal whitespace run becomes
one underscore.  `prevSpace` records whether the previous character
was part of a run already replaced. -/
def collapseWsAux : Bool → List Char → List Char
  | _, [] => []
  | prevSpace, c :: cs =>
    if pyIsSpace c then
      if prevSpace then collapseWsAux true cs
      else '_' :: collapseWsAux true cs
    else c :: collapseWsAux false cs

/-- Replace each whitespace run by a single underscore. -/
def collapseWs (l : List Char) : List Char := collapseWsAux false l

/-- `normalize_role(role)` from `database.py`: lower-case and strip,
drop one trailing `s`, replace whitespace runs by underscores. -/
def normalize_role (role : String) : String :=
  ⟨collapseWs (dropTrailingS (stripL (lowerL role.data)))⟩

/-- `ROLE_MAPPINGS` from `config.py`. -/
def ROLE_MAPPINGS : List (String × List String) :=
  [("forklift_driver",
     ["forklift", "forklift driver", "forklift operator", "lift driver",
      "Level 1 Forklift Driver", "Level 2 Forklift Driver",
      "Level 3 Forklift Driver"]),
   ("picker", ["picker", "order picker", "warehouse picker", "picker/packer"]),
   ("lumper", ["lumper", "Lumper"]),
   ("receiver", ["receiver", "receiving", "receiving clerk"]),
   ("staff", ["staff", "general labor", "warehouse worker",
     "warehouse associate"])]

/-- The characters after the first underscore, if any. -/
def afterUnderscore : List Char → Option (List Char)
  | [] => Option.none
  | c :: cs => if c = '_' then some cs else afterUnderscore cs

/-- `role_key.split('_', 1)[-1] if '_' in role_key else role_key`:
strip one leading operation segment from a composite role key. -/
def baseRoleOf (role_key : String) : String :=
  match afterUnderscore role_key.data with
  | some r => ⟨r⟩
  | none => role_key

/-- Python `metadata.get("original_job_title", "")` followed by the
string methods of `normalize_role`: a non-string value raises
(`AttributeError`), propagated to `retrieve_employees`' handler. -/
def asStr : PVal → Except Unit String
  | .str s => .ok s
  | _ => .error ()

/-- Append `emp` to `available_by_role[base]`, creating the entry
first when absent (the two-line pattern in the first pass). -/
def appendToRole (avail : List (String × List String)) (base emp : String) :
    List (String × List String) :=
  dictSet avail base ((alookup avail base).getD [] ++ [emp])

/-- The first pass of `retrieve_employees`: for every available
employee, try each required role key; on a match of any (lowered)
synonym inside the normalized job title, record the employee under
the base role. -/
def availableByRole (required_keys : List String) :
    List (String × Metadata) → List (String × List String) →
    Except Unit (List (String × List String))
  | [], avail => .ok avail
  | (emp_id, md) :: rest, avail =>
    if is_employee_available md then
      match asStr (mget md "original_job_title" (.str "")) with
      | .error e => .error e
      | .ok jt =>
        let job_title := normalize_role jt
        let avail' := required_keys.foldl
          (fun avail role_key =>
            let base_role := baseRoleOf role_key
            let role_variations := (alookup ROLE_MAPPINGS base_role).getD
              [base_role]
            if role_variations.any
                (fun v => pyStrIn (lowerStr v) job_title) then
              appendToRole avail base_role emp_id
            else avail)
          avail
        availableByRole required_keys rest avail'
    else availableByRole required_keys rest avail

/-- The greedy inner loop of the second pass: walk the base role's
pool, taking employees not yet in the global assigned set until the
quota is reached. -/
def pickFor (need : ℤ) (assigned picked : List String) :
    List String → List String × List String
  | [] => (picked, assigned)
  | e :: pool =>
    if e ∉ assigned ∧ (picked.length : ℤ) < need then
      pickFor need (assigned ++ [e]) (picked ++ [e]) pool
    else pickFor need assigned picked pool

/-- One role key of the second pass: look up the base role's pool,
greedily pick, and store the picked list under the role key. -/
def assignStep (avail : List (String × List String))
    (st : List (String × List String) × List String) (rk : String × ℤ) :
    List (String × List String) × List String :=
  let base_role := baseRoleOf rk.1
  let available := (alookup avail base_role).getD []
  let pa := pickFor rk.2 st.2 [] available
  (dictSet st.1 rk.1 pa.1, pa.2)

/-- The second pass of `retrieve_employees`: assign employees role key
by role key, threading the global `assigned_employees` set. -/
def secondPass (required : List (String × ℤ))
    (avail : List (String × List String)) : List (String × List String) :=
  (required.foldl (assignStep avail) ([], [])).1

/-- `retrieve_employees(required_roles)` from `database.py`, over a
snapshot of the employee store.  An exception in the first pass is
caught by the function's handler, which returns the
`matched_employees` built so far — the empty dict. -/
def retrieve_employees (required : List (String × ℤ))
    (employees : List (String × Metadata)) : List (String × List String) :=
  match availableByRole (required.map Prod.fst) employees [] with
  | .error _ => []
  | .ok avail => secondPass required avail

theorem pickFor_spec (pool : List String) (need : ℤ)
    (assigned picked : List String) :
    ∃ new, pickFor need assigned picked pool =
        (picked ++ new, assigned ++ new) ∧
      new.Nodup ∧ ∀ x ∈ new, x ∉ assigned := by
  induction pool generalizing assigned picked with
  | nil => exact ⟨[], by simp [pickFor], List.nodup_nil, by simp⟩
  | cons e pool' ih =>
    by_cases h : e ∉ assigned ∧ ((picked.length : ℤ) < need)
    · obtain ⟨new', hres, hnd', hfr'⟩ :=
        ih (assigned ++ [e]) (picked ++ [e])
      refine ⟨e :: new', ?_, ?_, ?_⟩
      · simp only [pickFor, if_pos h]
        rw [hres]
        simp
      · refine List.nodup_cons.mpr ⟨?_, hnd'⟩
        intro hmem
        have := hfr' e hmem
        simp at this
      · intro x hx
        rcases List.mem_cons.mp hx with rfl | hx'
        · exact h.1
        · intro hxa
          exact hfr' x hx' (List.mem_append_left _ hxa)
    · obtain ⟨new, hres, hnd, hfr⟩ := ih assigned picked
      refine ⟨new, ?_, hnd, hfr⟩
      simp only [pickFor, if_neg h]
      exact hres

theorem pickFor_length (pool : List String) (need : ℤ)
    (assigned picked : List String)
    (h : (picked.length : ℤ) ≤ need) :
    (((pickFor need assigned picked pool).1).length : ℤ) ≤ need := by
  induction pool generalizing assigned picked with
  | nil => simpa [pickFor] using h
  | cons e pool' ih =>
    by_cases hc : e ∉ assigned ∧ ((picked.length : ℤ) < need)
    · simp only [pickFor, if_pos hc]
      exact ih _ _ (by simp; omega)
    · simp only [pickFor, if_neg hc]
      exact ih _ _ h

theorem secondPassFold_dedup (avail : List (String × List String))
    (rks : List (String × ℤ)) (matched : List (String × List String))
    (A : List String)
    (hnd : (rks.map Prod.fst).Nodup)
    (hjoin : (List.flatten (matched.map Prod.snd)).Nodup)
    (hsub : ∀ x ∈ List.flatten (matched.map Prod.snd), x ∈ A)
    (hfresh : ∀ rk ∈ rks.map Prod.fst, alookup matched rk = Option.none) :
    (List.flatten
      (((rks.foldl (assignStep avail) (matched, A)).1).map Prod.snd)).Nodup := by
  induction rks generalizing matched A with
  | nil => exact hjoin
  | cons rk rks' ih =>
    rw [List.map_cons, List.nodup_cons] at hnd
    obtain ⟨hk, hnd'⟩ := hnd
    obtain ⟨new, hres, hnew, hfr⟩ :=
      pickFor_spec ((alookup avail (baseRoleOf rk.1)).getD []) rk.2 A []
    have hstep : assignStep avail (matched, A) rk =
        (matched ++ [(rk.1, new)], A ++ new) := by
      rw [assignStep]
      dsimp only
      rw [hres]
      have habs : alookup matched rk.1 = Option.none :=
        hfresh rk.1 (by simp)
      rw [dictSet, if_neg (by rw [habs]; simp)]
      simp
    rw [List.foldl_cons, hstep]
    refine ih _ _ hnd' ?_ ?_ ?_
    · rw [List.map_append, List.flatten_append]
      simp only [List.map_cons, List.map_nil, List.flatten_cons, List.flatten_nil,
        List.append_nil]
      rw [List.nodup_append]
      exact ⟨hjoin, hnew, fun x hx hx' => hfr x hx' (hsub x hx)⟩
    · intro x hx
      rw [List.map_append, List.flatten_append] at hx
      simp only [List.map_cons, List.map_nil, List.flatten_cons, List.flatten_nil,
        List.append_nil] at hx
      rcases List.mem_append.mp hx with hx' | hx'
      · exact List.mem_append_left _ (hsub x hx')
      · exact List.mem_append_right _ hx'
    · intro rk' hrk'
      have h1 : alookup matched rk' = Option.none :=
        hfresh rk' (List.mem_cons_of_mem _ hrk')
      have h2 : rk' ≠ rk.1 := fun h => hk (h ▸ hrk')
      rw [alookup_append, h1]
      have : alookup [(rk.1, new)] rk' = Option.none := by
        rw [alookup, if_neg (fun h => h2 h.symm)]
        rfl
      rw [this]
      rfl

/-- C1: in the result of `retrieve_employees`, no employee id appears
under more than one role key, and none twice under a single role key:
the concatenation of all result lists has no duplicates, for every
required-roles dict (distinct keys, as in a Python dict) and every
employee store snapshot. -/
theorem retrieve_employees_global_dedup (required : List (String × ℤ))
    (employees : List (String × Metadata))
    (hnd : (required.map Prod.fst).Nodup) :
    (List.flatten
      ((retrieve_employees required employees).map Prod.snd)).Nodup := by
  rw [retrieve_employees]
  cases availableByRole (required.map Prod.fst) employees [] with
  | error e => simp
  | ok avail =>
    exact secondPassFold_dedup avail required [] [] hnd (by simp)
      (by simp) (fun rk _ => rfl)

/-- C1 witness: the dedup invariant on a concrete store where one
forklift driver matches two requested role keys. -/
theorem retrieve_employees_global_dedup_witness :
    (List.flatten
      ((retrieve_employees
          [("inbound_forklift_driver", 2), ("picking_forklift_driver", 1)]
          [("E1", [("original_job_title", PVal.str "Forklift Driver")]),
           ("E2", [("original_job_title", PVal.str "Level 2 Forklift Driver")]),
           ("E3", [("original_job_title", PVal.str "Receiver")])]).map
        Prod.snd)).Nodup :=
  retrieve_employees_global_dedup
    [("inbound_forklift_driver", 2), ("picking_forklift_driver", 1)]
    [("E1", [("original_job_title", PVal.str "Forklift Driver")]),
     ("E2", [("original_job_title", PVal.str "Level 2 Forklift Driver")]),
     ("E3", [("original_job_title", PVal.str "Receiver")])]
    (by decide)

/-! ## `schedule_service.py`: `assign_employees_to_roles` -/

/-- The nested-roles flattening of `assign_employees_to_roles` and
`save_daily_staffing`: `role_key = f"{operation}_{role}"`. -/
def flattenRoles (required : RequiredRoles) : List (String × ℤ) :=
  required.foldl
    (fun flat opRoles =>
      opRoles.2.foldl
        (fun flat rc => dictSet flat (opRoles.1 ++ "_" ++ rc.1) rc.2)
        flat)
    []

/-- Python `l[:c]` (also for negative `c`, which counts from the
end). -/
def pysliceTo {α : Type} (l : List α) (c : ℤ) : List α :=
  if 0 ≤ c then l.take c.toNat else l.take (l.length - (-c).toNat)

/-- One role key of the assignment loop:
`assigned_employees[role_key] = available_employees[:count]`. -/
def sliceStep (matched : List (String × List String))
    (assigned : List (String × List String)) (rk : String × ℤ) :
    List (String × List String) :=
  dictSet assigned rk.1 (pysliceTo ((alookup matched rk.1).getD []) rk.2)

/-- `assign_employees_to_roles(required_roles)` from
`schedule_service.py`, over the employee store snapshot. -/
def assign_employees_to_roles (required : RequiredRoles)
    (employees : List (String × Metadata)) : List (String × List String) :=
  let flattened_roles := flattenRoles required
  let matched_employees := retrieve_employees flattened_roles employees
  flattened_roles.foldl (sliceStep matched_employees) []

theorem alookup_mem_keys {α : Type} {d : List (String × α)} {k : String}
    {v : α} (h : alookup d k = some v) : k ∈ d.map Prod.fst := by
  have := alookup_mem h
  exact List.mem_map.mpr ⟨(k, v), this, rfl⟩

theorem alookup_secondPassFold (avail : List (String × List String))
    (rks : List (String × ℤ)) (matched : List (String × List String))
    (A : List String) (k : String) (l : List String)
    (hnd : (rks.map Prod.fst).Nodup)
    (hpos : ∀ rc ∈ rks, 0 ≤ rc.2)
    (hres : alookup ((rks.foldl (assignStep avail) (matched, A)).1) k
      = some l) :
    (alookup rks k = Option.none ∧ alookup matched k = some l) ∨
    (∃ c, alookup rks k = some c ∧ (l.length : ℤ) ≤ c) := by
  induction rks generalizing matched A with
  | nil => exact Or.inl ⟨rfl, hres⟩
  | cons rk rks' ih =>
    obtain ⟨r1, c1⟩ := rk
    rw [List.map_cons, List.nodup_cons] at hnd
    obtain ⟨hk, hnd'⟩ := hnd
    rw [List.foldl_cons] at hres
    rw [show assignStep avail (matched, A) (r1, c1) =
        (dictSet matched r1
          (pickFor c1 A [] ((alookup avail (baseRoleOf r1)).getD [])).1,
         (pickFor c1 A [] ((alookup avail (baseRoleOf r1)).getD [])).2)
      from rfl] at hres
    have hpos' : ∀ rc ∈ rks', 0 ≤ rc.2 :=
      fun rc hrc => hpos rc (List.mem_cons_of_mem _ hrc)
    rcases ih _ _ hnd' hpos' hres with ⟨h1, h2⟩ | ⟨c, h1, h2⟩
    · by_cases hkk : k = r1
      · subst hkk
        rw [alookup_dictSet_self] at h2
        cases h2
        refine Or.inr ⟨c1, ?_, ?_⟩
        · rw [alookup, if_pos rfl]
        · exact pickFor_length _ _ _ _
            (by simpa using hpos (k, c1) (by simp))
      · rw [alookup_dictSet_other _ _ _ _ hkk] at h2
        refine Or.inl ⟨?_, h2⟩
        rw [alookup, if_neg (fun h => hkk h.symm)]
        exact h1
    · have hkk : k ≠ r1 := by
        intro h
        subst h
        exact hk (alookup_mem_keys h1)
      refine Or.inr ⟨c, ?_, h2⟩
      rw [alookup, if_neg (fun h => hkk h.symm)]
      exact h1

theorem pysliceTo_length_le {α : Type} (l : List α) (c : ℤ) (hc : 0 ≤ c) :
    ((pysliceTo l c).length : ℤ) ≤ c := by
  rw [pysliceTo, if_pos hc]
  have h1 : (l.take c.toNat).length ≤ c.toNat := by
    simp [List.length_take]
  calc ((l.take c.toNat).length : ℤ) ≤ (c.toNat : ℤ) := by exact_mod_cast h1
    _ = c := Int.toNat_of_nonneg hc

theorem alookup_sliceFold (matched : List (String × List String))
    (rks : List (String × ℤ)) (assigned : List (String × List String))
    (k : String) (hnd : (rks.map Prod.fst).Nodup) :
    alookup (rks.foldl (sliceStep matched) assigned) k =
      match alookup rks k with
      | some c => some (pysliceTo ((alookup matched k).getD []) c)
      | none => alookup assigned k := by
  induction rks generalizing assigned with
  | nil => simp [alookup]
  | cons rk rest ih =>
    obtain ⟨r, c⟩ := rk
    rw [List.map_cons, List.nodup_cons] at hnd
    obtain ⟨hr, hnd'⟩ := hnd
    rw [List.foldl_cons, ih _ hnd']
    by_cases hk : k = r
    · subst hk
      have h1 : alookup rest k = Option.none := (alookup_eq_none_iff _ _).mpr hr
      rw [h1, alookup, if_pos rfl]
      rw [sliceStep]
      dsimp only
      rw [alookup_dictSet_self]
    · have h2 : alookup ((r, c) :: rest) k = alookup rest k := by
        rw [alookup, if_neg (fun h => hk h.symm)]
      rw [h2]
      have h3 : alookup (sliceStep matched assigned (r, c)) k =
          alookup assigned k := by
        rw [sliceStep]
        dsimp only
        exact alookup_dictSet_other _ _ _ _ hk
      rw [h3]

/-- C4: every list in the result of `retrieve_employees` is no longer
than the required count requested for its role key; likewise for the
assignment map `assign_employees_to_roles` builds from it (per
flattened role key). -/
theorem assignment_respects_quota :
    (∀ (required : List (String × ℤ)) (employees : List (String × Metadata))
       (k : String) (l : List String),
       (required.map Prod.fst).Nodup →
       (∀ rc ∈ required, 0 ≤ rc.2) →
       alookup (retrieve_employees required employees) k = some l →
       ∃ c, alookup required k = some c ∧ (l.length : ℤ) ≤ c) ∧
    (∀ (required : RequiredRoles) (employees : List (String × Metadata))
       (k : String) (l : List String),
       ((flattenRoles required).map Prod.fst).Nodup →
       (∀ rc ∈ flattenRoles required, 0 ≤ rc.2) →
       alookup (assign_employees_to_roles required employees) k = some l →
       ∃ c, alookup (flattenRoles required) k = some c ∧
         (l.length : ℤ) ≤ c) := by
  constructor
  · intro required employees k l hnd hpos hres
    rw [retrieve_employees] at hres
    cases havail : availableByRole (required.map Prod.fst) employees [] with
    | error e =>
      rw [havail] at hres
      exact absurd hres (by simp [alookup])
    | ok avail =>
      rw [havail] at hres
      unfold secondPass at hres
      rcases alookup_secondPassFold avail required [] [] k l hnd hpos hres
        with ⟨_, h2⟩ | h
      · exact absurd h2 (by simp [alookup])
      · exact h
  · intro required employees k l hnd hpos hres
    rw [assign_employees_to_roles] at hres
    rw [alookup_sliceFold _ _ _ _ hnd] at hres
    cases hflat : alookup (flattenRoles required) k with
    | none =>
      rw [hflat] at hres
      exact absurd hres (by simp [alookup])
    | some c =>
      rw [hflat] at hres
      cases hres
      refine ⟨c, rfl, pysliceTo_length_le _ _ ?_⟩
      exact hpos _ (alookup_mem hflat)

/-- C4 witness: the quota bound at a concrete store, for both the
retrieval map and the assignment map. -/
theorem assignment_respects_quota_witness :
    (∃ c, alookup
        [("inbound_forklift_driver", (2 : ℤ)),
         ("picking_forklift_driver", 1)] "inbound_forklift_driver" =
        some c ∧ ((["E1", "E2"] : List String).length : ℤ) ≤ c) ∧
    (∃ c, alookup (flattenRoles
        [("inbound", [("forklift_driver", 2)]),
         ("picking", [("forklift_driver", 1)])]) "inbound_forklift_driver" =
        some c ∧ ((["E1", "E2"] : List String).length : ℤ) ≤ c) :=
  ⟨assignment_respects_quota.1
      [("inbound_forklift_driver", 2), ("picking_forklift_driver", 1)]
      [("E1", [("original_job_title", PVal.str "Forklift Driver")]),
       ("E2", [("original_job_title", PVal.str "Level 2 Forklift Driver")]),
       ("E3", [("original_job_title", PVal.str "Receiver")])]
      "inbound_forklift_driver" ["E1", "E2"]
      (by decide) (by decide) (by decide),
   assignment_respects_quota.2
      [("inbound", [("forklift_driver", 2)]),
       ("picking", [("forklift_driver", 1)])]
      [("E1", [("original_job_title", PVal.str "Forklift Driver")]),
       ("E2", [("original_job_title", PVal.str "Level 2 Forklift Driver")]),
       ("E3", [("original_job_title", PVal.str "Receiver")])]
      "inbound_forklift_driver" ["E1", "E2"]
      (by decide) (by decide) (by decide)⟩

/-! ## `database.py`: fuzzy name matching (`find_best_match`)

The employee store is abstracted as a map from employee id to the
decoded `name_variations` list (a missing id models the
`continue` on a failed fetch).  The Levenshtein distance of the
`Levenshtein.distance` library call is embedded by its defining
recurrence, with a structural fuel argument so that it computes by
kernel reduction. -/

/-- Levenshtein recurrence with fuel (the fuel never runs out when it
starts at `|a| + |b|`). -/
def levFuel : ℕ → List Char → List Char → ℕ
  | _, [], ys => ys.length
  | _, x :: xs, [] => (x :: xs).length
  | 0, _ :: _, _ :: _ => 0
  | n + 1, x :: xs, y :: ys =>
    if x = y then levFuel n xs ys
    else 1 + min (levFuel n (x :: xs) ys)
      (min (levFuel n xs (y :: ys)) (levFuel n xs ys))

/-- Levenshtein edit distance. -/
def levDist (a b : List Char) : ℕ := levFuel (a.length + b.length) a b

theorem levFuel_self (xs : List Char) : ∀ n, levFuel n xs xs = 0 := by
  induction xs with
  | nil => intro n; simp [levFuel]
  | cons x xs ih =>
    intro n
    cases n with
    | zero => rfl
    | succ m =>
      show (if x = x then levFuel m xs xs else _) = 0
      rw [if_pos rfl]
      exact ih m

theorem levDist_self (xs : List Char) : levDist xs xs = 0 :=
  levFuel_self xs _

/-- The inner loop over one candidate's name variations: an exact
(case-insensitive) match returns the candidate immediately
(`.error emp_id` models the early `return`); otherwise the running
best `(score, candidate)` is updated on strictly smaller distance. -/
def scanVariations (name_lower : List Char) (emp_id : String)
    (best : Option (ℕ × String)) :
    List String → Except String (Option (ℕ × String))
  | [] => .ok best
  | v :: vars =>
    let variation_lower := lowerL v.data
    if name_lower = variation_lower then .error emp_id
    else
      let d := levDist name_lower variation_lower
      let best' : Option (ℕ × String) :=
        match best with
        | Option.none => some (d, emp_id)
        | some (b, e) => if d < b then some (d, emp_id) else some (b, e)
      scanVariations name_lower emp_id best' vars

/-- The outer loop over the candidate list: skip candidates missing
from the store, fall back to `[emp_id]` when no variations are
stored, and thread the running best. -/
def scanCandidates (name_lower : List Char)
    (store : List (String × List String)) (best : Option (ℕ × String)) :
    List String → Except String (Option (ℕ × String))
  | [] => .ok best
  | emp_id :: rest =>
    match alookup store emp_id with
    | Option.none => scanCandidates name_lower store best rest
    | some vars0 =>
      let name_variations := if vars0 = [] then [emp_id] else vars0
      match scanVariations name_lower emp_id best name_variations with
      | .error e => .error e
      | .ok best' => scanCandidates name_lower store best' rest

/-- `find_best_match(name, employee_list)` from `database.py`: accept
the best fuzzy match only when its distance is at most
`0.3 × len(name)`. -/
def find_best_match (name : String) (employee_list : List String)
    (store : List (String × List String)) : Option String :=
  match scanCandidates (lowerL name.data) store Option.none employee_list with
  | .error emp_id => some emp_id
  | .ok Option.none => Option.none
  | .ok (some (b, e)) =>
    if (b : ℚ) ≤ (name.length : ℚ) * (3/10) then some e else Option.none

/-- The name variations the scan effectively considers for a
candidate. -/
def effVariations (store : List (String × List String)) (emp_id : String) :
    List String :=
  match alookup store emp_id with
  | Option.none => []
  | some vars0 => if vars0 = [] then [emp_id] else vars0

/-- All candidate/variation distances the scan can consider. -/
def allDistances (name : String) (employee_list : List String)
    (store : List (String × List String)) : List ℕ :=
  (employee_list.map (fun emp_id =>
    (effVariations store emp_id).map
      (fun v => levDist (lowerL name.data) (lowerL v.data)))).flatten

/-- Whether a candidate has a case-insensitive exact variation. -/
def hasExactMatch (name_lower : List Char)
    (store : List (String × List String)) (emp_id : String) : Bool :=
  (effVariations store emp_id).any (fun v => name_lower = lowerL v.data)

theorem scanVariations_error (nl : List Char) (emp : String)
    (vars : List String) :
    ∀ best e, scanVariations nl emp best vars = .error e →
      e = emp ∧ ∃ v ∈ vars, nl = lowerL v.data := by
  induction vars with
  | nil =>
    intro best e h
    simp [scanVariations] at h
  | cons v vars' ih =>
    intro best e h
    by_cases hx : nl = lowerL v.data
    · rw [scanVariations, if_pos hx] at h
      cases h
      exact ⟨rfl, v, by simp, hx⟩
    · rw [scanVariations, if_neg hx] at h
      obtain ⟨he, w, hw, hwx⟩ := ih _ _ h
      exact ⟨he, w, List.mem_cons_of_mem _ hw, hwx⟩

theorem scanVariations_ok (nl : List Char) (emp : String)
    (vars : List String) :
    ∀ best best', scanVariations nl emp best vars = .ok best' →
      ∀ p, best' = some p →
        best = some p ∨ ∃ v ∈ vars, p.1 = levDist nl (lowerL v.data) := by
  induction vars with
  | nil =>
    intro best best' h p hp
    rw [scanVariations] at h
    cases h
    exact Or.inl hp
  | cons v vars' ih =>
    intro best best' h p hp
    by_cases hx : nl = lowerL v.data
    · rw [scanVariations, if_pos hx] at h
      cases h
    · rw [scanVariations, if_neg hx] at h
      rcases ih _ _ h p hp with h1 | ⟨w, hw, hwx⟩
      · cases best with
        | none =>
          dsimp only at h1
          cases h1
          exact Or.inr ⟨v, by simp, rfl⟩
        | some be =>
          obtain ⟨b, e⟩ := be
          dsimp only at h1
          by_cases hd : levDist nl (lowerL v.data) < b
          · rw [if_pos hd] at h1
            cases h1
            exact Or.inr ⟨v, by simp, rfl⟩
          · rw [if_neg hd] at h1
            cases h1
            exact Or.inl rfl
      · exact Or.inr ⟨w, List.mem_cons_of_mem _ hw, hwx⟩

theorem scanVariations_no_exact (nl : List Char) (emp : String)
    (vars : List String) (h : ∀ v ∈ vars, nl ≠ lowerL v.data) :
    ∀ best, ∃ best', scanVariations nl emp best vars = .ok best' := by
  induction vars with
  | nil => exact fun best => ⟨best, rfl⟩
  | cons v vars' ih =>
    intro best
    have hx : nl ≠ lowerL v.data := h v (by simp)
    have h' : ∀ w ∈ vars', nl ≠ lowerL w.data :=
      fun w hw => h w (List.mem_cons_of_mem _ hw)
    obtain ⟨best', hb⟩ := ih h' _
    exact ⟨best', by rw [scanVariations, if_neg hx]; exact hb⟩

theorem scanVariations_exact (nl : List Char) (emp : String)
    (vars : List String) (h : ∃ v ∈ vars, nl = lowerL v.data) :
    ∀ best, scanVariations nl emp best vars = .error emp := by
  induction vars with
  | nil => simp at h
  | cons v vars' ih =>
    intro best
    by_cases hx : nl = lowerL v.data
    · rw [scanVariations, if_pos hx]
    · rw [scanVariations, if_neg hx]
      obtain ⟨w, hw, hwx⟩ := h
      rcases List.mem_cons.mp hw with rfl | hw'
      · exact absurd hwx hx
      · exact ih ⟨w, hw', hwx⟩ _

theorem effVariations_of_lookup {store : List (String × List String)}
    {emp : String} {vars0 : List String}
    (h : alookup store emp = some vars0) :
    effVariations store emp = if vars0 = [] then [emp] else vars0 := by
  rw [effVariations, h]

theorem allDistances_cons (name : String) (emp : String)
    (rest : List String) (store : List (String × List String)) :
    allDistances name (emp :: rest) store =
      (effVariations store emp).map
        (fun v => levDist (lowerL name.data) (lowerL v.data)) ++
      allDistances name rest store := by
  rw [allDistances, allDistances, List.map_cons, List.flatten_cons]

theorem scanCandidates_error (name : String)
    (store : List (String × List String)) (l : List String) :
    ∀ best e, scanCandidates (lowerL name.data) store best l = .error e →
      ∃ d ∈ allDistances name l store, d = 0 := by
  induction l with
  | nil =>
    intro best e h
    simp [scanCandidates] at h
  | cons emp rest ih =>
    intro best e h
    rw [scanCandidates] at h
    cases hlook : alookup store emp with
    | none =>
      rw [hlook] at h
      obtain ⟨d, hd, hd0⟩ := ih _ _ h
      refine ⟨d, ?_, hd0⟩
      rw [allDistances_cons, effVariations, hlook]
      simpa using hd
    | some vars0 =>
      rw [hlook] at h
      dsimp only at h
      cases hscan : scanVariations (lowerL name.data) emp best
          (if vars0 = [] then [emp] else vars0) with
      | error e' =>
        rw [hscan] at h
        obtain ⟨he', v, hv, hvx⟩ :=
          scanVariations_error _ _ _ _ _ hscan
        refine ⟨levDist (lowerL name.data) (lowerL v.data), ?_, ?_⟩
        · rw [allDistances_cons, effVariations_of_lookup hlook]
          exact List.mem_append_left _
            (List.mem_map.mpr ⟨v, hv, rfl⟩)
        · rw [hvx]
          exact levDist_self _
      | ok best' =>
        rw [hscan] at h
        obtain ⟨d, hd, hd0⟩ := ih _ _ h
        refine ⟨d, ?_, hd0⟩
        rw [allDistances_cons]
        exact List.mem_append_right _ hd

theorem scanCandidates_ok (name : String)
    (store : List (String × List String)) (l : List String) :
    ∀ best best', scanCandidates (lowerL name.data) store best l = .ok best' →
      ∀ p, best' = some p →
        best = some p ∨ ∃ d ∈ allDistances name l store, p.1 = d := by
  induction l with
  | nil =>
    intro best best' h p hp
    rw [scanCandidates] at h
    cases h
    exact Or.inl hp
  | cons emp rest ih =>
    intro best best' h p hp
    rw [scanCandidates] at h
    cases hlook : alookup store emp with
    | none =>
      rw [hlook] at h
      rcases ih _ _ h p hp with h1 | ⟨d, hd, hdx⟩
      · exact Or.inl h1
      · refine Or.inr ⟨d, ?_, hdx⟩
        rw [allDistances_cons, effVariations, hlook]
        simpa using hd
    | some vars0 =>
      rw [hlook] at h
      dsimp only at h
      cases hscan : scanVariations (lowerL name.data) emp best
          (if vars0 = [] then [emp] else vars0) with
      | error e' =>
        rw [hscan] at h
        cases h
      | ok best1 =>
        rw [hscan] at h
        rcases ih _ _ h p hp with h1 | ⟨d, hd, hdx⟩
        · rcases scanVariations_ok _ _ _ _ _ hscan p h1 with h2 | ⟨v, hv, hvx⟩
          · exact Or.inl h2
          · refine Or.inr ⟨levDist (lowerL name.data) (lowerL v.data), ?_, hvx⟩
            rw [allDistances_cons, effVariations_of_lookup hlook]
            exact List.mem_append_left _ (List.mem_map.mpr ⟨v, hv, rfl⟩)
        · refine Or.inr ⟨d, ?_, hdx⟩
          rw [allDistances_cons]
          exact List.mem_append_right _ hd

theorem scanCandidates_find_exact (name : String)
    (store : List (String × List String)) (l : List String) :
    ∀ best e, l.find? (hasExactMatch (lowerL name.data) store) = some e →
      scanCandidates (lowerL name.data) store best l = .error e := by
  induction l with
  | nil =>
    intro best e h
    simp at h
  | cons emp rest ih =>
    intro best e h
    cases hpe : hasExactMatch (lowerL name.data) store emp with
    | true =>
      rw [List.find?_cons_of_pos _ hpe] at h
      cases h
      have hex : ∃ v ∈ effVariations store emp,
          lowerL name.data = lowerL v.data := by
        obtain ⟨v, hv, hvx⟩ := List.any_eq_true.mp hpe
        exact ⟨v, hv, of_decide_eq_true hvx⟩
      cases hlook : alookup store emp with
      | none =>
        rw [effVariations, hlook] at hex
        simp at hex
      | some vars0 =>
        rw [effVariations_of_lookup hlook] at hex
        rw [scanCandidates, hlook]
        dsimp only
        rw [scanVariations_exact _ _ _ hex]
    | false =>
      rw [List.find?_cons_of_neg _ (by simp [hpe])] at h
      rw [scanCandidates]
      cases hlook : alookup store emp with
      | none => exact ih _ _ h
      | some vars0 =>
        dsimp only
        have hnx : ∀ v ∈ (if vars0 = [] then [emp] else vars0),
            lowerL name.data ≠ lowerL v.data := by
          intro v hv heq
          have : hasExactMatch (lowerL name.data) store emp = true := by
            rw [hasExactMatch, effVariations_of_lookup hlook]
            exact List.any_eq_true.mpr ⟨v, hv, decide_eq_true heq⟩
          rw [hpe] at this
          cases this
        obtain ⟨best1, hb1⟩ :=
          scanVariations_no_exact (lowerL name.data) emp _ hnx best
        rw [hb1]
        exact ih _ _ h

/-- C8: `find_best_match` returns an employee id only when the least
case-insensitive Levenshtein distance between the query and any
candidate's name variations is at most `0.3 × len(query)` (phrased as:
some considered distance is within the threshold); when every
considered distance exceeds the threshold it returns no match; and a
case-insensitive exact match (the first candidate having one) is
returned immediately. -/
theorem find_best_match_threshold :
    (∀ (name : String) (employee_list : List String)
       (store : List (String × List String)) (e : String),
       find_best_match name employee_list store = some e →
       ∃ d ∈ allDistances name employee_list store,
         (d : ℚ) ≤ (name.length : ℚ) * (3/10)) ∧
    (∀ (name : String) (employee_list : List String)
       (store : List (String × List String)),
       (∀ d ∈ allDistances name employee_list store,
         (name.length : ℚ) * (3/10) < (d : ℚ)) →
       find_best_match name employee_list store = Option.none) ∧
    (∀ (name : String) (employee_list : List String)
       (store : List (String × List String)) (e : String),
       employee_list.find? (hasExactMatch (lowerL name.data) store) =
         some e →
       find_best_match name employee_list store = some e) := by
  have hthr : ∀ name : String, (0 : ℚ) ≤ (name.length : ℚ) * (3/10) :=
    fun name => mul_nonneg (Nat.cast_nonneg _) (by norm_num)
  refine ⟨?_, ?_, ?_⟩
  · intro name l store e hres
    rw [find_best_match] at hres
    cases hscan : scanCandidates (lowerL name.data) store Option.none l with
    | error emp =>
      obtain ⟨d, hd, hd0⟩ := scanCandidates_error name store l _ _ hscan
      refine ⟨d, hd, ?_⟩
      rw [hd0]
      simp only [Nat.cast_zero]
      exact hthr name
    | ok ob =>
      cases ob with
      | none =>
        rw [hscan] at hres
        exact absurd hres (by simp)
      | some p =>
        obtain ⟨b, e'⟩ := p
        rw [hscan] at hres
        dsimp only at hres
        by_cases hth : (b : ℚ) ≤ (name.length : ℚ) * (3/10)
        · rcases scanCandidates_ok name store l _ _ hscan (b, e') rfl
            with h1 | ⟨d, hd, hdx⟩
          · exact absurd h1 (by simp)
          · refine ⟨d, hd, ?_⟩
            have hbd : b = d := hdx
            rw [← hbd]
            exact hth
        · rw [if_neg hth] at hres
          exact absurd hres (by simp)
  · intro name l store hall
    rw [find_best_match]
    cases hscan : scanCandidates (lowerL name.data) store Option.none l with
    | error emp =>
      exfalso
      obtain ⟨d, hd, hd0⟩ := scanCandidates_error name store l _ _ hscan
      have h1 := hall d hd
      rw [hd0] at h1
      simp only [Nat.cast_zero] at h1
      exact absurd (hthr name) (not_le.mpr h1)
    | ok ob =>
      cases ob with
      | none => rfl
      | some p =>
        obtain ⟨b, e'⟩ := p
        dsimp only
        rcases scanCandidates_ok name store l _ _ hscan (b, e') rfl
          with h1 | ⟨d, hd, hdx⟩
        · exact absurd h1 (by simp)
        · have hbd : b = d := hdx
          rw [if_neg (not_le.mpr (by rw [hbd]; exact hall d hd))]
  · intro name l store e hfind
    rw [find_best_match, scanCandidates_find_exact name store l _ e hfind]

/-- C8 witness: an exact case-insensitive match is returned (and
satisfies the threshold bound), and with no candidates the threshold
hypothesis holds vacuously and no match is returned. -/
theorem find_best_match_threshold_witness :
    find_best_match "jon" ["e1"] [("e1", ["Jon"])] = some "e1" ∧
    find_best_match "query" [] [] = Option.none ∧
    (∃ d ∈ allDistances "jon" ["e1"] [("e1", ["Jon"])],
      (d : ℚ) ≤ (("jon" : String).length : ℚ) * (3/10)) := by
  have h3 := find_best_match_threshold.2.2 "jon" ["e1"]
    [("e1", ["Jon"])] "e1" (by decide)
  exact ⟨h3,
    find_best_match_threshold.2.1 "query" [] []
      (by simp [allDistances]),
    find_best_match_threshold.1 "jon" ["e1"] [("e1", ["Jon"])] "e1" h3⟩

end Scheduler
